import Mathlib

/-!
Verification of the BlackJack repository (two near-identical Python
programs, `francescoversion.py` and `backup 2.py`).  The data model,
scorer and round engine below are shallow embeddings of the Python
source: the deck is a list of cards dealt from its end, the scorer
mirrors `calculate_total`, and `play_round` mirrors the body of the
betting loop in `main` (the console I/O is replaced by an explicit
list of player decisions).
-/

/-- A card suit, one of the four fixed symbols of `create_deck`. -/
inductive Suit where
  | hearts | diamonds | clubs | spades
deriving DecidableEq, Repr

/-- A card rank, one of the thirteen strings of `create_deck`. -/
inductive Rank where
  | r2 | r3 | r4 | r5 | r6 | r7 | r8 | r9 | r10 | jack | queen | king | ace
deriving DecidableEq, Repr

/-- A card: a value and a suit, as the Python dict has. -/
structure Card where
  value : Rank
  suit : Suit
deriving DecidableEq, Repr

/-- The suit list of `create_deck`. -/
def suits : List Suit := [.hearts, .diamonds, .clubs, .spades]

/-- The value list of `create_deck`. -/
def values : List Rank :=
  [.r2, .r3, .r4, .r5, .r6, .r7, .r8, .r9, .r10, .jack, .queen, .king, .ace]

/-- Python `single_deck` of `create_deck`: every (value, suit) pair, suits outer. -/
def single_deck : List Card :=
  (suits.map (fun s => values.map (fun v => Card.mk v s))).flatten

/-- Python `create_deck`: the single deck duplicated (Python `single_deck * 2`). -/
def create_deck : List Card := single_deck ++ single_deck

/-- Python `deal_card`: removes and returns the card at the end of the deck
(Python `deck.pop()`); `none` models the exception on an empty deck. -/
def deal_card (deck : List Card) : Option (Card × List Card) :=
  match deck.getLast? with
  | none => none
  | some c => some (c, deck.dropLast)

/-- Python `card_value`: face value, 10 for J/Q/K, 11 for an Ace. -/
def card_value (card : Card) : Int :=
  match card.value with
  | .jack | .queen | .king => 10
  | .ace => 11
  | .r2 => 2
  | .r3 => 3
  | .r4 => 4
  | .r5 => 5
  | .r6 => 6
  | .r7 => 7
  | .r8 => 8
  | .r9 => 9
  | .r10 => 10

/-- Sum of `card_value` over a hand (the first pass of `calculate_total`). -/
def base_sum (hand : List Card) : Int := (hand.map card_value).sum

/-- Number of Aces in a hand (the `aces` counter of `calculate_total`). -/
def ace_count (hand : List Card) : Nat :=
  (hand.filter (fun c => c.value = Rank.ace)).length

/-- The soft-mode while loop of `calculate_total`:
`while total > 21 and aces: total -= 10; aces -= 1`. -/
def adjust_aces : Int → Nat → Int
  | total, 0 => total
  | total, aces + 1 => if total > 21 then adjust_aces (total - 10) aces else total

/-- Python `calculate_total`: Ace-as-11 sum, then either subtract 10 per Ace
unconditionally (hard mode, `has_hit_after_ace = true`) or run the
soft-mode adjustment loop. -/
def calculate_total (hand : List Card) (has_hit_after_ace : Bool) : Int :=
  if has_hit_after_ace then base_sum hand - (ace_count hand) * 10
  else adjust_aces (base_sum hand) (ace_count hand)

/-- Value of a card with the Ace forced to 1 (the hard valuation of the spec). -/
def hard_value (card : Card) : Int :=
  if card.value = Rank.ace then 1 else card_value card

/-- Sum of hard values of a hand: the smallest achievable total. -/
def low_sum (hand : List Card) : Int := (hand.map hard_value).sum

/-- A player decision, `hit` or `stay` (invalid console input is
re-prompted and never reaches the round logic). -/
inductive Move where
  | hit | stay
deriving DecidableEq, Repr

/-- Outcome of a round, one constructor per settlement branch of `main`. -/
inductive Outcome where
  | bust | blackjack | win | loss | push
deriving DecidableEq, Repr

/-- The state returned when a round settles: outcome, balance delta, the
final hands and totals, and the remaining deck. -/
structure RoundResult where
  outcome : Outcome
  delta : Int
  player_hand : List Card
  dealer_hand : List Card
  player_total : Int
  dealer_total : Int
  deck : List Card
deriving DecidableEq, Repr

/-- The player decision loop of `main`: on `hit` draw a card, rescore in
soft mode (the source always calls `calculate_total` with the default
flag), break on a total over 21 or equal to 21; on `stay` break.
`none` models an exhausted decision source or an empty deck. -/
def player_turn : List Move → List Card → List Card → Option (List Card × List Card)
  | [], _, _ => none
  | .stay :: _, hand, deck => some (hand, deck)
  | .hit :: ms, hand, deck =>
    match deal_card deck with
    | none => none
    | some (c, deck1) =>
      let hand1 := hand ++ [c]
      let total := calculate_total hand1 false
      if total > 21 then some (hand1, deck1)
      else if total = 21 then some (hand1, deck1)
      else player_turn ms hand1 deck1

/-- The dealer draw loop of `main`: `while dealer_total < 17` draw a
card and rescore in soft mode, with the in-loop break on a total over
21; `none` models an empty deck. -/
def dealer_turn (hand deck : List Card) : Option (List Card × List Card) :=
  if calculate_total hand false < 17 then
    match h : deal_card deck with
    | none => none
    | some (c, deck1) =>
      let hand1 := hand ++ [c]
      if calculate_total hand1 false > 21 then some (hand1, deck1)
      else dealer_turn hand1 deck1
  else some (hand, deck)
termination_by deck.length
decreasing_by
  simp only [deal_card] at h
  cases hd : deck.getLast? with
  | none => simp [hd] at h
  | some d =>
    simp [hd] at h
    have hne : deck ≠ [] := by
      intro hn; rw [hn] at hd; simp at hd
    rw [← h.2]
    have := List.length_dropLast deck
    have hpos : 0 < deck.length := List.length_pos.mpr hne
    omega

/-- One betting round of `main` after a valid bet: deal one card to the
player and one to the dealer, run the player loop, then settle (bust,
then natural blackjack with payout `int(bet * 2.5)`, then the dealer
loop followed by the total comparison). -/
def play_round (deck : List Card) (moves : List Move) (bet : Nat) : Option RoundResult :=
  match deal_card deck with
  | none => none
  | some (p1, deck1) =>
    match deal_card deck1 with
    | none => none
    | some (d1, deck2) =>
      match player_turn moves [p1] deck2 with
      | none => none
      | some (player, deck3) =>
        let player_total := calculate_total player false
        if player_total > 21 then
          some ⟨.bust, -(bet : Int), player, [d1], player_total,
            calculate_total [d1] false, deck3⟩
        else if player.length = 2 ∧ player_total = 21 then
          some ⟨.blackjack, ((5 * bet) / 2 : Nat), player, [d1], player_total,
            calculate_total [d1] false, deck3⟩
        else
          match dealer_turn [d1] deck3 with
          | none => none
          | some (dealer, deck4) =>
            let dealer_total := calculate_total dealer false
            if dealer_total > 21 then
              some ⟨.win, (bet : Int), player, dealer, player_total, dealer_total, deck4⟩
            else if player_total > dealer_total then
              some ⟨.win, (bet : Int), player, dealer, player_total, dealer_total, deck4⟩
            else if player_total < dealer_total then
              some ⟨.loss, -(bet : Int), player, dealer, player_total, dealer_total, deck4⟩
            else
              some ⟨.push, 0, player, dealer, player_total, dealer_total, deck4⟩

/-- Draw `n` cards in sequence: the drawn cards in order and the
remaining deck, `none` as soon as a draw hits the empty deck. -/
def deal_n : Nat → List Card → Option (List Card × List Card)
  | 0, deck => some ([], deck)
  | n + 1, deck =>
    match deal_card deck with
    | none => none
    | some (c, deck1) =>
      match deal_n n deck1 with
      | none => none
      | some (cs, deck2) => some (c :: cs, deck2)

/-! ### Scorer lemmas -/

theorem adjust_aces_of_le (t : Int) (a : Nat) (h : t ≤ 21) : adjust_aces t a = t := by
  cases a with
  | zero => rfl
  | succ n => simp only [adjust_aces, if_neg (by omega : ¬ t > 21)]

theorem adjust_aces_exists (a : Nat) : ∀ t : Int, ∃ j ≤ a, adjust_aces t a = t - 10 * j := by
  induction a with
  | zero => intro t; exact ⟨0, Nat.le_refl 0, by simp [adjust_aces]⟩
  | succ n ih =>
    intro t
    by_cases ht : t > 21
    · obtain ⟨j, hj, he⟩ := ih (t - 10)
      refine ⟨j + 1, by omega, ?_⟩
      simp only [adjust_aces, if_pos ht, he]
      push_cast
      ring
    · exact ⟨0, by omega, by simp only [adjust_aces, if_neg ht]; simp⟩

theorem adjust_aces_le (a : Nat) : ∀ t : Int, t - 10 * a ≤ 21 → adjust_aces t a ≤ 21 := by
  induction a with
  | zero => intro t h; simpa [adjust_aces] using by omega
  | succ n ih =>
    intro t h
    by_cases ht : t > 21
    · simp only [adjust_aces, if_pos ht]
      apply ih
      push_cast at h ⊢
      omega
    · simp only [adjust_aces, if_neg ht]; omega

theorem adjust_aces_max (a : Nat) :
    ∀ t : Int, ∀ j ≤ a, t - 10 * j ≤ 21 → t - 10 * j ≤ adjust_aces t a := by
  induction a with
  | zero =>
    intro t j hj h
    interval_cases j
    simpa [adjust_aces] using h
  | succ n ih =>
    intro t j hj h
    by_cases ht : t > 21
    · cases j with
      | zero => simp at h; omega
      | succ j1 =>
        simp only [adjust_aces, if_pos ht]
        have := ih (t - 10) j1 (by omega) (by push_cast at h ⊢; omega)
        push_cast at this ⊢
        omega
    · simp only [adjust_aces, if_neg ht]
      have : (0 : Int) ≤ 10 * j := by positivity
      omega

theorem adjust_aces_overshoot (a : Nat) :
    ∀ t : Int, 21 < t - 10 * a → adjust_aces t a = t - 10 * a := by
  induction a with
  | zero => intro t h; simp [adjust_aces]
  | succ n ih =>
    intro t h
    have ht : t > 21 := by
      have : (0 : Int) ≤ 10 * (n + 1 : Nat) := by positivity
      omega
    simp only [adjust_aces, if_pos ht]
    rw [ih (t - 10) (by push_cast at h ⊢; omega)]
    push_cast
    ring

theorem card_value_eq_hard (c : Card) :
    card_value c = hard_value c + (if c.value = Rank.ace then 10 else 0) := by
  obtain ⟨v, s⟩ := c
  cases v <;> simp [card_value, hard_value]

theorem ace_count_cons (c : Card) (h : List Card) :
    ace_count (c :: h) = (if c.value = Rank.ace then 1 else 0) + ace_count h := by
  simp only [ace_count, List.filter_cons]
  split <;> simp_all <;> omega

theorem base_sum_eq_low (hand : List Card) :
    base_sum hand = low_sum hand + 10 * ace_count hand := by
  induction hand with
  | nil => rfl
  | cons c h ih =>
    have hb : base_sum (c :: h) = card_value c + base_sum h := by simp [base_sum]
    have hl : low_sum (c :: h) = hard_value c + low_sum h := by simp [low_sum]
    rw [hb, hl, ace_count_cons, ih, card_value_eq_hard c]
    split <;> push_cast <;> ring

theorem hard_value_ge_one (c : Card) : 1 ≤ hard_value c := by
  obtain ⟨v, s⟩ := c
  cases v <;> cases s <;> decide

theorem low_sum_ge_length (hand : List Card) : (hand.length : Int) ≤ low_sum hand := by
  induction hand with
  | nil => simp [low_sum]
  | cons c h ih =>
    have hl : low_sum (c :: h) = hard_value c + low_sum h := by simp [low_sum]
    have := hard_value_ge_one c
    rw [hl]
    simp only [List.length_cons]
    push_cast
    omega

/-! ### Claim theorems: scoring -/

/-- C1: soft-mode scoring (`calculate_total` with `has_hit_after_ace = false`)
is the Ace-as-11 sum run through the adjustment loop, and equals the
highest total ≤ 21 achievable by valuing each Ace as 1 or 11 (the
achievable totals are `low_sum + 10 * k` for `k ≤ ace_count`), or the
minimum possible overshoot (`low_sum`) when no achievable total is ≤ 21;
the empty hand scores 0 and two Aces score 12. -/
theorem soft_mode_scoring (hand : List Card) :
    calculate_total hand false = adjust_aces (base_sum hand) (ace_count hand) ∧
    (∃ k ≤ ace_count hand,
      calculate_total hand false = low_sum hand + 10 * k) ∧
    (low_sum hand ≤ 21 →
      calculate_total hand false ≤ 21 ∧
      ∀ k ≤ ace_count hand, low_sum hand + 10 * k ≤ 21 →
        low_sum hand + 10 * k ≤ calculate_total hand false) ∧
    (21 < low_sum hand → calculate_total hand false = low_sum hand) ∧
    calculate_total [] false = 0 ∧
    calculate_total [⟨Rank.ace, Suit.spades⟩, ⟨Rank.ace, Suit.hearts⟩] false = 12 := by
  have hdef : calculate_total hand false = adjust_aces (base_sum hand) (ace_count hand) := by
    simp [calculate_total]
  have hbl := base_sum_eq_low hand
  refine ⟨hdef, ?_, ?_, ?_, by decide, by decide⟩
  · obtain ⟨j, hj, he⟩ := adjust_aces_exists (ace_count hand) (base_sum hand)
    refine ⟨ace_count hand - j, by omega, ?_⟩
    rw [hdef, he, hbl]
    push_cast
    omega
  · intro hle
    constructor
    · rw [hdef]
      apply adjust_aces_le
      rw [hbl]
      omega
    · intro k hk hk21
      have heq : base_sum hand - 10 * ((ace_count hand - k : Nat) : Int)
          = low_sum hand + 10 * k := by
        rw [hbl]
        push_cast
        omega
      rw [hdef, ← heq]
      exact adjust_aces_max (ace_count hand) (base_sum hand)
        (ace_count hand - k) (by omega) (by rw [heq]; exact hk21)
  · intro hgt
    rw [hdef, adjust_aces_overshoot (ace_count hand) (base_sum hand) (by rw [hbl]; omega),
      hbl]
    ring

/-- Closed instance of `soft_mode_scoring` at the two-Ace hand: its
`low_sum` is 2 ≤ 21 and the soft score is bounded by 21. -/
theorem soft_mode_scoring_witness :
    calculate_total [⟨Rank.ace, Suit.spades⟩, ⟨Rank.ace, Suit.hearts⟩] false ≤ 21 :=
  ((soft_mode_scoring [⟨Rank.ace, Suit.spades⟩, ⟨Rank.ace, Suit.hearts⟩]).2.2.1
    (by decide)).1

/-- C4: hard-mode scoring (`calculate_total` with `has_hit_after_ace = true`)
subtracts 10 per Ace from the Ace-as-11 sum unconditionally — it always
equals the sum with every Ace valued 1 — and four Aces score 4 in hard
mode but 14 in soft mode. -/
theorem hard_mode_scoring (hand : List Card) :
    calculate_total hand true = base_sum hand - (ace_count hand) * 10 ∧
    calculate_total hand true = low_sum hand ∧
    calculate_total [⟨Rank.ace, Suit.spades⟩, ⟨Rank.ace, Suit.hearts⟩,
      ⟨Rank.ace, Suit.clubs⟩, ⟨Rank.ace, Suit.diamonds⟩] true = 4 ∧
    calculate_total [⟨Rank.ace, Suit.spades⟩, ⟨Rank.ace, Suit.hearts⟩,
      ⟨Rank.ace, Suit.clubs⟩, ⟨Rank.ace, Suit.diamonds⟩] false = 14 := by
  have h1 : calculate_total hand true = base_sum hand - (ace_count hand) * 10 := by
    simp [calculate_total]
  refine ⟨h1, ?_, by decide, by decide⟩
  rw [h1, base_sum_eq_low hand]
  push_cast
  ring

/-! ### Deal and dealer-loop lemmas -/

theorem deal_card_concat (deck : List Card) (c : Card) :
    deal_card (deck ++ [c]) = some (c, deck) := by
  simp [deal_card]

theorem deal_card_none_iff (deck : List Card) : deal_card deck = none ↔ deck = [] := by
  induction deck using List.reverseRecOn with
  | nil => simp [deal_card]
  | append_singleton l a _ => simp [deal_card_concat]

theorem deal_card_some {deck d1 : List Card} {c : Card}
    (h : deal_card deck = some (c, d1)) : deck = d1 ++ [c] := by
  induction deck using List.reverseRecOn with
  | nil => simp [deal_card] at h
  | append_singleton l a _ =>
    rw [deal_card_concat] at h
    obtain ⟨h1, h2⟩ := Prod.mk.injEq .. ▸ Option.some.injEq .. ▸ h
    rw [h1, h2]

theorem dealer_turn_unfold (hand deck : List Card) :
    dealer_turn hand deck =
      if calculate_total hand false < 17 then
        match deal_card deck with
        | none => none
        | some (c, deck1) =>
          if calculate_total (hand ++ [c]) false > 21 then some (hand ++ [c], deck1)
          else dealer_turn (hand ++ [c]) deck1
      else some (hand, deck) := by
  rw [dealer_turn]
  cases hdc : deal_card deck with
  | none => simp [hdc]
  | some cd =>
    obtain ⟨c, deck1⟩ := cd
    simp [hdc]

theorem soft_total_ge_low (hand : List Card) :
    low_sum hand ≤ calculate_total hand false := by
  obtain ⟨j, hj, he⟩ := adjust_aces_exists (ace_count hand) (base_sum hand)
  have hbl := base_sum_eq_low hand
  simp only [calculate_total, Bool.false_eq_true, if_false]
  rw [he, hbl]
  push_cast
  omega

theorem soft_total_ge_length (hand : List Card) :
    (hand.length : Int) ≤ calculate_total hand false :=
  le_trans (low_sum_ge_length hand) (soft_total_ge_low hand)

theorem dealer_turn_some_total (hand deck h1 d1 : List Card)
    (hf : dealer_turn hand deck = some (h1, d1)) : 17 ≤ calculate_total h1 false := by
  induction hand, deck using dealer_turn.induct with
  | case1 hand deck hlt hnone =>
    rw [dealer_turn_unfold, if_pos hlt, hnone] at hf
    exact absurd hf (by simp)
  | case2 hand deck hlt c deck1 hsome hand1 hbust =>
    have hb : calculate_total (hand ++ [c]) false > 21 := hbust
    rw [dealer_turn_unfold, if_pos hlt] at hf
    simp only [hsome] at hf
    rw [if_pos hb] at hf
    simp only [Option.some.injEq, Prod.mk.injEq] at hf
    obtain ⟨e1, e2⟩ := hf
    rw [← e1]
    omega
  | case3 hand deck hlt c deck1 hsome hand1 hnb ih =>
    have hb : ¬ calculate_total (hand ++ [c]) false > 21 := hnb
    rw [dealer_turn_unfold, if_pos hlt] at hf
    simp only [hsome] at hf
    rw [if_neg hb] at hf
    exact ih hf
  | case4 hand deck hge =>
    rw [dealer_turn_unfold, if_neg hge] at hf
    simp only [Option.some.injEq, Prod.mk.injEq] at hf
    obtain ⟨e1, e2⟩ := hf
    rw [← e1]
    omega

theorem dealer_turn_stand (hand deck : List Card)
    (h : ¬ calculate_total hand false < 17) :
    dealer_turn hand deck = some (hand, deck) := by
  rw [dealer_turn_unfold, if_neg h]

theorem dealer_turn_prefix (hand deck h1 d1 : List Card)
    (hf : dealer_turn hand deck = some (h1, d1)) : ∃ extra, h1 = hand ++ extra := by
  induction hand, deck using dealer_turn.induct with
  | case1 hand deck hlt hnone =>
    rw [dealer_turn_unfold, if_pos hlt, hnone] at hf
    exact absurd hf (by simp)
  | case2 hand deck hlt c deck1 hsome hand1 hbust =>
    have hb : calculate_total (hand ++ [c]) false > 21 := hbust
    rw [dealer_turn_unfold, if_pos hlt] at hf
    simp only [hsome] at hf
    rw [if_pos hb] at hf
    simp only [Option.some.injEq, Prod.mk.injEq] at hf
    exact ⟨[c], hf.1.symm⟩
  | case3 hand deck hlt c deck1 hsome hand1 hnb ih =>
    have hb : ¬ calculate_total (hand ++ [c]) false > 21 := hnb
    rw [dealer_turn_unfold, if_pos hlt] at hf
    simp only [hsome] at hf
    rw [if_neg hb] at hf
    obtain ⟨extra, he⟩ := ih hf
    refine ⟨c :: extra, ?_⟩
    have he2 : h1 = (hand ++ [c]) ++ extra := he
    rw [he2]
    simp
  | case4 hand deck hge =>
    rw [dealer_turn_unfold, if_neg hge] at hf
    simp only [Option.some.injEq, Prod.mk.injEq] at hf
    exact ⟨[], by simp [hf.1.symm]⟩

theorem dealer_turn_conserve (hand deck h1 d1 : List Card)
    (hf : dealer_turn hand deck = some (h1, d1)) :
    (d1 : Multiset Card) + (h1 : Multiset Card)
      = (deck : Multiset Card) + (hand : Multiset Card) := by
  induction hand, deck using dealer_turn.induct with
  | case1 hand deck hlt hnone =>
    rw [dealer_turn_unfold, if_pos hlt, hnone] at hf
    exact absurd hf (by simp)
  | case2 hand deck hlt c deck1 hsome hand1 hbust =>
    have hb : calculate_total (hand ++ [c]) false > 21 := hbust
    rw [dealer_turn_unfold, if_pos hlt] at hf
    simp only [hsome] at hf
    rw [if_pos hb] at hf
    simp only [Option.some.injEq, Prod.mk.injEq] at hf
    obtain ⟨e1, e2⟩ := hf
    rw [← e1, ← e2, deal_card_some hsome]
    simp only [← Multiset.coe_add]
    abel
  | case3 hand deck hlt c deck1 hsome hand1 hnb ih =>
    have hb : ¬ calculate_total (hand ++ [c]) false > 21 := hnb
    rw [dealer_turn_unfold, if_pos hlt] at hf
    simp only [hsome] at hf
    rw [if_neg hb] at hf
    have ih2 : (d1 : Multiset Card) + (h1 : Multiset Card)
        = (deck1 : Multiset Card) + ((hand ++ [c] : List Card) : Multiset Card) := ih hf
    rw [deal_card_some hsome, ih2]
    simp only [← Multiset.coe_add]
    abel
  | case4 hand deck hge =>
    rw [dealer_turn_unfold, if_neg hge] at hf
    simp only [Option.some.injEq, Prod.mk.injEq] at hf
    obtain ⟨e1, e2⟩ := hf
    rw [← e1, ← e2]

theorem dealer_turn_length (hand deck h1 d1 : List Card)
    (hf : dealer_turn hand deck = some (h1, d1)) :
    d1.length + h1.length = deck.length + hand.length := by
  have := congrArg Multiset.card (dealer_turn_conserve hand deck h1 d1 hf)
  simpa [Multiset.coe_card] using this

theorem dealer_turn_grow (hand deck h1 d1 : List Card)
    (hlt : calculate_total hand false < 17)
    (hf : dealer_turn hand deck = some (h1, d1)) : hand.length < h1.length := by
  rw [dealer_turn_unfold, if_pos hlt] at hf
  cases hdc : deal_card deck with
  | none =>
    rw [hdc] at hf
    exact absurd hf (by simp)
  | some cd =>
    obtain ⟨c, deck1⟩ := cd
    rw [hdc] at hf
    simp only at hf
    by_cases hb : calculate_total (hand ++ [c]) false > 21
    · rw [if_pos hb] at hf
      simp only [Option.some.injEq, Prod.mk.injEq] at hf
      rw [← hf.1]
      simp
    · rw [if_neg hb] at hf
      obtain ⟨extra, he⟩ := dealer_turn_prefix (hand ++ [c]) deck1 h1 d1 hf
      rw [he]
      simp only [List.length_append, List.length_cons, List.length_nil]
      omega

theorem dealer_turn_isSome (hand deck : List Card)
    (h : 17 ≤ deck.length + hand.length) : (dealer_turn hand deck).isSome := by
  induction hand, deck using dealer_turn.induct with
  | case1 hand deck hlt hnone =>
    exfalso
    have hd : deck = [] := (deal_card_none_iff deck).mp hnone
    have hlen := soft_total_ge_length hand
    rw [hd] at h
    simp at h
    have : (17 : Int) ≤ (hand.length : Int) := by exact_mod_cast h
    omega
  | case2 hand deck hlt c deck1 hsome hand1 hbust =>
    have hb : calculate_total (hand ++ [c]) false > 21 := hbust
    rw [dealer_turn_unfold, if_pos hlt]
    simp only [hsome]
    rw [if_pos hb]
    simp
  | case3 hand deck hlt c deck1 hsome hand1 hnb ih =>
    have hb : ¬ calculate_total (hand ++ [c]) false > 21 := hnb
    rw [dealer_turn_unfold, if_pos hlt]
    simp only [hsome]
    rw [if_neg hb]
    apply ih
    have := deal_card_some hsome
    have hlen : deck.length = deck1.length + 1 := by rw [this]; simp
    show 17 ≤ deck1.length + (hand ++ [c]).length
    simp only [List.length_append, List.length_cons, List.length_nil]
    omega
  | case4 hand deck hge =>
    rw [dealer_turn_unfold, if_neg hge]
    simp

/-! ### Player-loop and round lemmas -/

theorem player_turn_conserve : ∀ (ms : List Move) (hand deck h1 d1 : List Card),
    player_turn ms hand deck = some (h1, d1) →
    (d1 : Multiset Card) + (h1 : Multiset Card)
      = (deck : Multiset Card) + (hand : Multiset Card) := by
  intro ms
  induction ms with
  | nil => intro hand deck h1 d1 hf; simp [player_turn] at hf
  | cons m ms ih =>
    intro hand deck h1 d1 hf
    cases m with
    | stay =>
      simp only [player_turn, Option.some.injEq, Prod.mk.injEq] at hf
      rw [← hf.1, ← hf.2]
    | hit =>
      simp only [player_turn] at hf
      cases hdc : deal_card deck with
      | none => simp [hdc] at hf
      | some cd =>
        obtain ⟨c, deck1⟩ := cd
        simp only [hdc] at hf
        have hd : (deck : Multiset Card) = ↑deck1 + ↑[c] := by
          rw [deal_card_some hdc]
          simp only [← Multiset.coe_add]
        by_cases h21 : calculate_total (hand ++ [c]) false > 21
        · rw [if_pos h21] at hf
          simp only [Option.some.injEq, Prod.mk.injEq] at hf
          rw [← hf.1, ← hf.2, hd]
          simp only [← Multiset.coe_add]
          abel
        · rw [if_neg h21] at hf
          by_cases he : calculate_total (hand ++ [c]) false = 21
          · rw [if_pos he] at hf
            simp only [Option.some.injEq, Prod.mk.injEq] at hf
            rw [← hf.1, ← hf.2, hd]
            simp only [← Multiset.coe_add]
            abel
          · rw [if_neg he] at hf
            have := ih (hand ++ [c]) deck1 h1 d1 hf
            rw [this, hd]
            simp only [← Multiset.coe_add]
            abel

theorem player_turn_length (ms : List Move) (hand deck h1 d1 : List Card)
    (hf : player_turn ms hand deck = some (h1, d1)) :
    d1.length + h1.length = deck.length + hand.length := by
  have := congrArg Multiset.card (player_turn_conserve ms hand deck h1 d1 hf)
  simpa [Multiset.coe_card] using this

theorem play_round_inv (deck : List Card) (moves : List Move) (bet : Nat) (r : RoundResult)
    (hf : play_round deck moves bet = some r) :
    r.player_total = calculate_total r.player_hand false ∧
    r.dealer_total = calculate_total r.dealer_hand false ∧
    (21 < r.player_total →
      r.outcome = Outcome.bust ∧ r.delta = -(bet : Int) ∧ r.dealer_hand.length = 1) ∧
    (r.player_total ≤ 21 → r.player_hand.length = 2 → r.player_total = 21 →
      r.outcome = Outcome.blackjack ∧ r.delta = ((5 * bet) / 2 : Nat) ∧
        r.dealer_hand.length = 1) ∧
    (r.player_total ≤ 21 → ¬(r.player_hand.length = 2 ∧ r.player_total = 21) →
      17 ≤ r.dealer_total ∧
      (21 < r.dealer_total → r.outcome = Outcome.win ∧ r.delta = (bet : Int)) ∧
      (r.dealer_total ≤ 21 → r.dealer_total < r.player_total →
        r.outcome = Outcome.win ∧ r.delta = (bet : Int)) ∧
      (r.dealer_total ≤ 21 → r.player_total < r.dealer_total →
        r.outcome = Outcome.loss ∧ r.delta = -(bet : Int)) ∧
      (r.dealer_total ≤ 21 → r.player_total = r.dealer_total →
        r.outcome = Outcome.push ∧ r.delta = 0)) ∧
    ((r.deck : Multiset Card) + (r.player_hand : Multiset Card)
        + (r.dealer_hand : Multiset Card) = (deck : Multiset Card)) := by
  rw [play_round] at hf
  cases hd1 : deal_card deck with
  | none => simp [hd1] at hf
  | some pd =>
  obtain ⟨p1, deck1⟩ := pd
  simp only [hd1] at hf
  cases hd2 : deal_card deck1 with
  | none => simp [hd2] at hf
  | some dd =>
  obtain ⟨d1, deck2⟩ := dd
  simp only [hd2] at hf
  cases hpt : player_turn moves [p1] deck2 with
  | none => simp [hpt] at hf
  | some pt =>
  obtain ⟨player, deck3⟩ := pt
  simp only [hpt] at hf
  have hdeck : (deck : Multiset Card) = ↑deck1 + ↑[p1] := by
    rw [deal_card_some hd1]; simp only [← Multiset.coe_add]
  have hdeck1 : (deck1 : Multiset Card) = ↑deck2 + ↑[d1] := by
    rw [deal_card_some hd2]; simp only [← Multiset.coe_add]
  have hpc : (deck3 : Multiset Card) + (player : Multiset Card)
      = (deck2 : Multiset Card) + ↑[p1] :=
    player_turn_conserve moves [p1] deck2 player deck3 hpt
  have hcons0 : (deck3 : Multiset Card) + (player : Multiset Card) + ↑[d1]
      = (deck : Multiset Card) := by
    rw [hpc, hdeck, hdeck1]
    abel
  by_cases hb : calculate_total player false > 21
  · rw [if_pos hb] at hf
    have hr := Option.some.inj hf
    subst hr
    refine ⟨rfl, rfl, fun _ => ⟨rfl, rfl, rfl⟩, ?_, ?_, ?_⟩
    · intro h1 _ _; simp only [RoundResult.player_total] at h1; omega
    · intro h1 _; simp only [RoundResult.player_total] at h1; omega
    · simp only [RoundResult.deck, RoundResult.player_hand, RoundResult.dealer_hand]
      exact hcons0
  · rw [if_neg hb] at hf
    by_cases hbj : player.length = 2 ∧ calculate_total player false = 21
    · rw [if_pos hbj] at hf
      have hr := Option.some.inj hf
      subst hr
      refine ⟨rfl, rfl, ?_, fun _ _ _ => ⟨rfl, rfl, rfl⟩, ?_, ?_⟩
      · intro h1; simp only [RoundResult.player_total] at h1; omega
      · intro _ h2
        simp only [RoundResult.player_hand, RoundResult.player_total] at h2
        exact absurd hbj h2
      · simp only [RoundResult.deck, RoundResult.player_hand, RoundResult.dealer_hand]
        exact hcons0
    · rw [if_neg hbj] at hf
      cases hdt : dealer_turn [d1] deck3 with
      | none => simp [hdt] at hf
      | some dt =>
      obtain ⟨dealer, deck4⟩ := dt
      simp only [hdt] at hf
      have hd17 : 17 ≤ calculate_total dealer false :=
        dealer_turn_some_total [d1] deck3 dealer deck4 hdt
      have hdc : (deck4 : Multiset Card) + (dealer : Multiset Card)
          = (deck3 : Multiset Card) + ↑[d1] :=
        dealer_turn_conserve [d1] deck3 dealer deck4 hdt
      have hcons : (deck4 : Multiset Card) + (player : Multiset Card)
          + (dealer : Multiset Card) = (deck : Multiset Card) := by
        have e1 : (deck4 : Multiset Card) + (player : Multiset Card)
            + (dealer : Multiset Card)
            = (deck4 : Multiset Card) + (dealer : Multiset Card)
              + (player : Multiset Card) := by abel
        rw [e1, hdc, ← hcons0]
        abel
      by_cases hd21 : calculate_total dealer false > 21
      · rw [if_pos hd21] at hf
        have hr := Option.some.inj hf
        subst hr
        refine ⟨rfl, rfl, ?_, ?_, ?_, hcons⟩
        · intro h1; simp only [RoundResult.player_total] at h1; omega
        · intro _ _ h3; simp only [RoundResult.player_total] at h3
          exact absurd ⟨(by assumption), h3⟩ hbj
        · intro _ _
          refine ⟨hd17, fun _ => ⟨rfl, rfl⟩, ?_, ?_, ?_⟩
          · intro h2 _; simp only [RoundResult.dealer_total] at h2; omega
          · intro h2 _; simp only [RoundResult.dealer_total] at h2; omega
          · intro h2 _; simp only [RoundResult.dealer_total] at h2; omega
      · rw [if_neg hd21] at hf
        by_cases hgt : calculate_total player false > calculate_total dealer false
        · rw [if_pos hgt] at hf
          have hr := Option.some.inj hf
          subst hr
          refine ⟨rfl, rfl, ?_, ?_, ?_, hcons⟩
          · intro h1; simp only [RoundResult.player_total] at h1; omega
          · intro _ h2 h3; simp only [RoundResult.player_hand] at h2
            simp only [RoundResult.player_total] at h3
            exact absurd ⟨h2, h3⟩ hbj
          · intro _ _
            refine ⟨hd17, ?_, fun _ _ => ⟨rfl, rfl⟩, ?_, ?_⟩
            · intro h2; simp only [RoundResult.dealer_total] at h2; omega
            · intro _ h3
              simp only [RoundResult.player_total, RoundResult.dealer_total] at h3
              omega
            · intro _ h3
              simp only [RoundResult.player_total, RoundResult.dealer_total] at h3
              omega
        · rw [if_neg hgt] at hf
          by_cases hlt : calculate_total player false < calculate_total dealer false
          · rw [if_pos hlt] at hf
            have hr := Option.some.inj hf
            subst hr
            refine ⟨rfl, rfl, ?_, ?_, ?_, hcons⟩
            · intro h1; simp only [RoundResult.player_total] at h1; omega
            · intro _ h2 h3; simp only [RoundResult.player_hand] at h2
              simp only [RoundResult.player_total] at h3
              exact absurd ⟨h2, h3⟩ hbj
            · intro _ _
              refine ⟨hd17, ?_, ?_, fun _ _ => ⟨rfl, rfl⟩, ?_⟩
              · intro h2; simp only [RoundResult.dealer_total] at h2; omega
              · intro _ h3
                simp only [RoundResult.player_total, RoundResult.dealer_total] at h3
                omega
              · intro _ h3
                simp only [RoundResult.player_total, RoundResult.dealer_total] at h3
                omega
          · rw [if_neg hlt] at hf
            have hr := Option.some.inj hf
            subst hr
            refine ⟨rfl, rfl, ?_, ?_, ?_, hcons⟩
            · intro h1; simp only [RoundResult.player_total] at h1; omega
            · intro _ h2 h3; simp only [RoundResult.player_hand] at h2
              simp only [RoundResult.player_total] at h3
              exact absurd ⟨h2, h3⟩ hbj
            · intro _ _
              refine ⟨hd17, ?_, ?_, ?_, fun _ _ => ⟨rfl, rfl⟩⟩
              · intro h2; simp only [RoundResult.dealer_total] at h2; omega
              · intro _ h3
                simp only [RoundResult.player_total, RoundResult.dealer_total] at h3
                omega
              · intro _ h3
                simp only [RoundResult.player_total, RoundResult.dealer_total] at h3
                omega

/-! ### Concrete cards and single-step evaluation helpers -/

/-- Ace of spades. -/
def cAs : Card := ⟨Rank.ace, Suit.spades⟩

/-- Nine of spades. -/
def c9s : Card := ⟨Rank.r9, Suit.spades⟩

/-- King of hearts. -/
def cKh : Card := ⟨Rank.king, Suit.hearts⟩

/-- King of spades. -/
def cKs : Card := ⟨Rank.king, Suit.spades⟩

/-- Queen of hearts. -/
def cQh : Card := ⟨Rank.queen, Suit.hearts⟩

/-- Queen of diamonds. -/
def cQd : Card := ⟨Rank.queen, Suit.diamonds⟩

/-- Jack of diamonds. -/
def cJd : Card := ⟨Rank.jack, Suit.diamonds⟩

/-- Seven of diamonds. -/
def c7d : Card := ⟨Rank.r7, Suit.diamonds⟩

/-- Six of diamonds. -/
def c6d : Card := ⟨Rank.r6, Suit.diamonds⟩

/-- Queen of spades. -/
def cQs : Card := ⟨Rank.queen, Suit.spades⟩

theorem dealer_turn_step (hand deck deck1 : List Card) (c : Card)
    (h1 : calculate_total hand false < 17) (h2 : deal_card deck = some (c, deck1))
    (h3 : ¬ calculate_total (hand ++ [c]) false > 21) :
    dealer_turn hand deck = dealer_turn (hand ++ [c]) deck1 := by
  rw [dealer_turn_unfold, if_pos h1]
  simp only [h2]
  rw [if_neg h3]

theorem dealer_turn_bust_step (hand deck deck1 : List Card) (c : Card)
    (h1 : calculate_total hand false < 17) (h2 : deal_card deck = some (c, deck1))
    (h3 : calculate_total (hand ++ [c]) false > 21) :
    dealer_turn hand deck = some (hand ++ [c], deck1) := by
  rw [dealer_turn_unfold, if_pos h1]
  simp only [h2]
  rw [if_pos h3]

/-! ### Claim theorems: round engine -/

/-- C6: whenever the settled round has a player total over 21, the
outcome is Bust, the balance delta is `-bet`, the dealer still holds
only the single initially dealt card (no counterpart draw happened),
and the total is the soft score of the final player hand. -/
theorem bust_settlement (deck : List Card) (moves : List Move) (bet : Nat)
    (r : RoundResult) (hf : play_round deck moves bet = some r)
    (hb : 21 < r.player_total) :
    r.outcome = Outcome.bust ∧ r.delta = -(bet : Int) ∧ r.dealer_hand.length = 1 ∧
      r.player_total = calculate_total r.player_hand false := by
  have i := play_round_inv deck moves bet r hf
  exact ⟨(i.2.2.1 hb).1, (i.2.2.1 hb).2.1, (i.2.2.1 hb).2.2, i.1⟩

/-- Closed instance of `bust_settlement`: a concrete round in which the
player hits twice, reaches 30 and busts; the dealer never draws. -/
theorem bust_settlement_witness :
    (⟨Outcome.bust, -(7 : Int), [cKs, cJd, cQd], [cQh], 30, 10, []⟩
        : RoundResult).outcome = Outcome.bust ∧
    (⟨Outcome.bust, -(7 : Int), [cKs, cJd, cQd], [cQh], 30, 10, []⟩
        : RoundResult).delta = -((7 : Nat) : Int) ∧
    (⟨Outcome.bust, -(7 : Int), [cKs, cJd, cQd], [cQh], 30, 10, []⟩
        : RoundResult).dealer_hand.length = 1 ∧
    (⟨Outcome.bust, -(7 : Int), [cKs, cJd, cQd], [cQh], 30, 10, []⟩
        : RoundResult).player_total
      = calculate_total (⟨Outcome.bust, -(7 : Int), [cKs, cJd, cQd], [cQh], 30, 10, []⟩
        : RoundResult).player_hand false :=
  bust_settlement [cQd, cJd, cQh, cKs] [Move.hit, Move.hit] 7
    ⟨Outcome.bust, -(7 : Int), [cKs, cJd, cQd], [cQh], 30, 10, []⟩
    (by decide) (by decide)

/-- C5: whenever the settled round has a two-card player hand scoring
exactly 21, the outcome is Blackjack, the balance delta is
`(5 * bet) / 2` (the truncation of `bet * 2.5`), and the dealer still
holds only the single initially dealt card. -/
theorem blackjack_settlement (deck : List Card) (moves : List Move) (bet : Nat)
    (r : RoundResult) (hf : play_round deck moves bet = some r)
    (h2 : r.player_hand.length = 2) (h21 : r.player_total = 21) :
    r.outcome = Outcome.blackjack ∧ r.delta = ((5 * bet) / 2 : Nat) ∧
      r.dealer_hand.length = 1 := by
  have i := play_round_inv deck moves bet r hf
  exact i.2.2.2.1 (by omega) h2 h21

/-- Closed instance of `blackjack_settlement`: Ace + King reach 21 on
the first hit with bet 7, paying `int(7 * 2.5) = 17`, no dealer draw. -/
theorem blackjack_settlement_witness :
    (⟨Outcome.blackjack, (17 : Int), [cAs, cKh], [cQd], 21, 10, []⟩
        : RoundResult).outcome = Outcome.blackjack ∧
    (⟨Outcome.blackjack, (17 : Int), [cAs, cKh], [cQd], 21, 10, []⟩
        : RoundResult).delta = (((5 * 7) / 2 : Nat) : Int) ∧
    (⟨Outcome.blackjack, (17 : Int), [cAs, cKh], [cQd], 21, 10, []⟩
        : RoundResult).dealer_hand.length = 1 :=
  blackjack_settlement [cKh, cQd, cAs] [Move.hit] 7
    ⟨Outcome.blackjack, (17 : Int), [cAs, cKh], [cQd], 21, 10, []⟩
    (by decide) (by decide) (by decide)

/-- C2: at a settlement that is neither a bust nor a natural blackjack,
the outcome follows the ordered comparison of `main`: dealer over 21
wins for the player (+bet); otherwise the higher total wins (±bet) and
equal totals push (delta 0). -/
theorem settlement_rules (deck : List Card) (moves : List Move) (bet : Nat)
    (r : RoundResult) (hf : play_round deck moves bet = some r)
    (hnb : r.player_total ≤ 21)
    (hnbj : ¬(r.player_hand.length = 2 ∧ r.player_total = 21)) :
    (21 < r.dealer_total → r.outcome = Outcome.win ∧ r.delta = (bet : Int)) ∧
    (r.dealer_total ≤ 21 → r.dealer_total < r.player_total →
      r.outcome = Outcome.win ∧ r.delta = (bet : Int)) ∧
    (r.dealer_total ≤ 21 → r.player_total < r.dealer_total →
      r.outcome = Outcome.loss ∧ r.delta = -(bet : Int)) ∧
    (r.dealer_total ≤ 21 → r.player_total = r.dealer_total →
      r.outcome = Outcome.push ∧ r.delta = 0) :=
  ((play_round_inv deck moves bet r hf).2.2.2.2.1 hnb hnbj).2

theorem dealer_K7_eval : dealer_turn [cKh] [c7d] = some ([cKh, c7d], []) := by
  rw [dealer_turn_step [cKh] [c7d] [] c7d (by decide) (by decide) (by decide)]
  exact dealer_turn_stand ([cKh] ++ [c7d]) [] (by decide)

theorem play_round_loss_eval :
    play_round [c7d, cKh, cQs] [Move.stay] 5
      = some ⟨Outcome.loss, -(5 : Int), [cQs], [cKh, c7d], 10, 17, []⟩ := by
  rw [play_round]
  simp only [show deal_card [c7d, cKh, cQs] = some (cQs, [c7d, cKh]) from by decide,
    show deal_card [c7d, cKh] = some (cKh, [c7d]) from by decide,
    show player_turn [Move.stay] [cQs] [c7d] = some ([cQs], [c7d]) from by decide]
  rw [if_neg (by decide), if_neg (by decide)]
  simp only [dealer_K7_eval]
  rw [if_neg (by decide), if_neg (by decide), if_pos (by decide)]
  decide

/-- Closed instance of `settlement_rules`: dealer finishes at 17 against a
player total of 10, a loss with delta `-5`. -/
theorem settlement_rules_witness :
    (⟨Outcome.loss, -(5 : Int), [cQs], [cKh, c7d], 10, 17, []⟩ : RoundResult).outcome
        = Outcome.loss ∧
    (⟨Outcome.loss, -(5 : Int), [cQs], [cKh, c7d], 10, 17, []⟩ : RoundResult).delta
        = -((5 : Nat) : Int) :=
  (settlement_rules [c7d, cKh, cQs] [Move.stay] 5
      ⟨Outcome.loss, -(5 : Int), [cQs], [cKh, c7d], 10, 17, []⟩
      play_round_loss_eval (by decide) (by decide)).2.2.1 (by decide) (by decide)

/-- C7: the dealer draw loop ends with a total ≥ 17 whenever it succeeds;
a hand already at 17 or more draws zero cards; a hand at exactly 16
draws at least one card; and the loop succeeds (no deck exhaustion)
whenever the deck and hand together hold at least 17 cards. -/
theorem dealer_loop_spec (hand deck h1 d1 : List Card) :
    (dealer_turn hand deck = some (h1, d1) → 17 ≤ calculate_total h1 false) ∧
    (17 ≤ calculate_total hand false → dealer_turn hand deck = some (hand, deck)) ∧
    (calculate_total hand false = 16 → dealer_turn hand deck = some (h1, d1) →
      hand.length < h1.length) ∧
    (17 ≤ deck.length + hand.length → (dealer_turn hand deck).isSome) := by
  refine ⟨dealer_turn_some_total hand deck h1 d1, ?_, ?_,
    dealer_turn_isSome hand deck⟩
  · intro h
    exact dealer_turn_stand hand deck (by omega)
  · intro h16 hf
    exact dealer_turn_grow hand deck h1 d1 (by omega) hf

/-- Closed instance of `dealer_loop_spec`: a 16-total hand draws an Ace,
lands on 17 and stops. -/
theorem dealer_loop_spec_witness :
    17 ≤ calculate_total [cKh, c6d, cAs] false ∧
    [cKh, c6d].length < [cKh, c6d, cAs].length ∧
    (dealer_turn [cKh, c6d] create_deck).isSome := by
  have hdt2 : dealer_turn [cKh, c6d] [cAs] = some ([cKh, c6d, cAs], []) := by
    rw [dealer_turn_step [cKh, c6d] [cAs] [] cAs (by decide) (by decide) (by decide)]
    exact dealer_turn_stand ([cKh, c6d] ++ [cAs]) [] (by decide)
  have hs := dealer_loop_spec [cKh, c6d] [cAs] [cKh, c6d, cAs] []
  have hs2 := dealer_loop_spec [cKh, c6d] create_deck [cKh, c6d, cAs] []
  exact ⟨hs.1 hdt2, hs.2.2.1 (by decide) hdt2, hs2.2.2.2 (by decide)⟩

/-- C3 (the code violates the claim): in this round the player hits while
already holding an Ace, yet the hand keeps being scored in soft mode —
`main` never passes `has_hit_after_ace`, so the final hand A+9 scores 20
and wins against the dealer total of 17, while hard-mode scoring of that same
hand yields 10, which would lose. -/
theorem hit_after_ace_stays_soft :
    play_round [c7d, c9s, cKh, cAs] [Move.hit, Move.stay] 10
      = some ⟨Outcome.win, (10 : Int), [cAs, c9s], [cKh, c7d], 20, 17, []⟩ ∧
    calculate_total [cAs, c9s] false = 20 ∧
    calculate_total [cAs, c9s] true = 10 ∧
    calculate_total [cAs, c9s] true < calculate_total [cKh, c7d] false := by
  refine ⟨?_, by decide, by decide, by decide⟩
  rw [play_round]
  simp only [show deal_card [c7d, c9s, cKh, cAs] = some (cAs, [c7d, c9s, cKh]) from
      by decide,
    show deal_card [c7d, c9s, cKh] = some (cKh, [c7d, c9s]) from by decide,
    show player_turn [Move.hit, Move.stay] [cAs] [c7d, c9s] = some ([cAs, c9s], [c7d])
      from by decide]
  rw [if_neg (by decide), if_neg (by decide)]
  simp only [dealer_K7_eval]
  rw [if_neg (by decide), if_pos (by decide)]
  decide

theorem deal_n_isSome_iff : ∀ (n : Nat) (deck : List Card),
    (deal_n n deck).isSome ↔ n ≤ deck.length := by
  intro n
  induction n with
  | zero => intro deck; simp [deal_n]
  | succ m ih =>
    intro deck
    cases hdc : deal_card deck with
    | none =>
      have hd : deck = [] := (deal_card_none_iff deck).mp hdc
      subst hd
      simp [deal_n, hdc]
    | some cd =>
      obtain ⟨c, deck1⟩ := cd
      have hlen : deck.length = deck1.length + 1 := by
        rw [deal_card_some hdc]; simp
      simp only [deal_n, hdc]
      cases hdn : deal_n m deck1 with
      | none =>
        have hm := ih deck1
        rw [hdn] at hm
        simp at hm
        simp [hlen]
        omega
      | some cs2 =>
        obtain ⟨cs, d2⟩ := cs2
        have hm := ih deck1
        rw [hdn] at hm
        simp at hm
        simp [hlen]
        omega

/-- C8: `deal_card` fails exactly on the empty deck and otherwise removes
and returns the last card of the deck; the double deck has 104 cards, and on
any 104-card deck the first 104 draws succeed while a 105th draw fails. -/
theorem deal_card_spec :
    (∀ deck : List Card, deal_card deck = none ↔ deck = []) ∧
    (∀ (deck d1 : List Card) (c : Card), deal_card deck = some (c, d1) →
      deck = d1 ++ [c] ∧ deck.length = d1.length + 1) ∧
    create_deck.length = 104 ∧
    (∀ deck : List Card, deck.length = 104 →
      (deal_n 104 deck).isSome ∧ deal_n 105 deck = none) := by
  refine ⟨deal_card_none_iff, ?_, by decide, ?_⟩
  · intro deck d1 c h
    have he := deal_card_some h
    exact ⟨he, by rw [he]; simp⟩
  · intro deck h
    constructor
    · rw [deal_n_isSome_iff 104 deck, h]
    · have h105 := deal_n_isSome_iff 105 deck
      rw [h] at h105
      cases hv : deal_n 105 deck with
      | none => rfl
      | some v =>
        rw [hv] at h105
        simp at h105

/-- Closed instance of `deal_card_spec`: the fresh double deck supports
exactly 104 draws and fails on the 105th. -/
theorem deal_card_spec_witness :
    (deal_n 104 create_deck).isSome ∧ deal_n 105 create_deck = none :=
  deal_card_spec.2.2.2 create_deck deal_card_spec.2.2.1

/-- C10: card conservation — one `deal_card` moves exactly one card out of
the deck; the player and dealer loops preserve the cards split between
their hand and the deck; and a settled round partitions the original
deck (104 cards when it is the double deck) among the remaining deck
and the two hands, as multisets, so no card is created, lost, or
returned. -/
theorem card_conservation :
    (∀ (deck d1 : List Card) (c : Card), deal_card deck = some (c, d1) →
      (d1 : Multiset Card) + ↑[c] = (deck : Multiset Card) ∧
        d1.length + 1 = deck.length) ∧
    (∀ (ms : List Move) (hand deck h1 d1 : List Card),
      player_turn ms hand deck = some (h1, d1) →
      (d1 : Multiset Card) + ↑h1 = (deck : Multiset Card) + ↑hand) ∧
    (∀ (hand deck h1 d1 : List Card), dealer_turn hand deck = some (h1, d1) →
      (d1 : Multiset Card) + ↑h1 = (deck : Multiset Card) + ↑hand) ∧
    (∀ (deck : List Card) (moves : List Move) (bet : Nat) (r : RoundResult),
      play_round deck moves bet = some r →
      (r.deck : Multiset Card) + ↑r.player_hand + ↑r.dealer_hand
          = (deck : Multiset Card) ∧
      (deck.length = 104 →
        r.deck.length + r.player_hand.length + r.dealer_hand.length = 104)) := by
  refine ⟨?_, player_turn_conserve, dealer_turn_conserve, ?_⟩
  · intro deck d1 c h
    have he := deal_card_some h
    constructor
    · rw [he]; simp only [← Multiset.coe_add]
    · rw [he]; simp
  · intro deck moves bet r hf
    have hc := (play_round_inv deck moves bet r hf).2.2.2.2.2
    refine ⟨hc, ?_⟩
    intro h104
    have := congrArg Multiset.card hc
    simp only [Multiset.card_add, Multiset.coe_card] at this
    omega

/-- Closed instance of `card_conservation`: the deck and hands of the
settled blackjack round partition the three dealt cards. -/
theorem card_conservation_witness :
    ((([] : List Card) : Multiset Card) + ↑[cAs, cKh] + ↑[cQd]
      = (([cKh, cQd, cAs] : List Card) : Multiset Card)) :=
  (card_conservation.2.2.2 [cKh, cQd, cAs] [Move.hit] 7
    ⟨Outcome.blackjack, (17 : Int), [cAs, cKh], [cQd], 21, 10, []⟩ (by decide)).1

/-! ### Embedding of the second program, `backup 2.py` (src/unnamed/part_000) -/

namespace B2

/-- The `create_deck` suits of `backup 2.py`. -/
def suits : List Suit := [.hearts, .diamonds, .clubs, .spades]

/-- The `create_deck` values of `backup 2.py`. -/
def values : List Rank :=
  [.r2, .r3, .r4, .r5, .r6, .r7, .r8, .r9, .r10, .jack, .queen, .king, .ace]

/-- Python `single_deck` of `backup 2.py`. -/
def single_deck : List Card :=
  (suits.map (fun s => values.map (fun v => Card.mk v s))).flatten

/-- Python `create_deck` of `backup 2.py`. -/
def create_deck : List Card := single_deck ++ single_deck

/-- Python `deal_card` of `backup 2.py`. -/
def deal_card (deck : List Card) : Option (Card × List Card) :=
  match deck.getLast? with
  | none => none
  | some c => some (c, deck.dropLast)

/-- Python `card_value` of `backup 2.py`. -/
def card_value (card : Card) : Int :=
  match card.value with
  | .jack | .queen | .king => 10
  | .ace => 11
  | .r2 => 2
  | .r3 => 3
  | .r4 => 4
  | .r5 => 5
  | .r6 => 6
  | .r7 => 7
  | .r8 => 8
  | .r9 => 9
  | .r10 => 10

/-- The soft-mode while loop of `calculate_total` in `backup 2.py`. -/
def adjust_aces : Int → Nat → Int
  | total, 0 => total
  | total, aces + 1 => if total > 21 then adjust_aces (total - 10) aces else total

/-- Python `calculate_total` of `backup 2.py`. -/
def calculate_total (hand : List Card) (has_hit_after_ace : Bool) : Int :=
  if has_hit_after_ace then
    (hand.map card_value).sum - ((hand.filter (fun c => c.value = Rank.ace)).length) * 10
  else
    adjust_aces ((hand.map card_value).sum)
      ((hand.filter (fun c => c.value = Rank.ace)).length)

/-- The player decision loop of `main` in `backup 2.py`. -/
def player_turn : List Move → List Card → List Card → Option (List Card × List Card)
  | [], _, _ => none
  | .stay :: _, hand, deck => some (hand, deck)
  | .hit :: ms, hand, deck =>
    match deal_card deck with
    | none => none
    | some (c, deck1) =>
      let hand1 := hand ++ [c]
      let total := calculate_total hand1 false
      if total > 21 then some (hand1, deck1)
      else if total = 21 then some (hand1, deck1)
      else player_turn ms hand1 deck1

/-- The dealer draw loop of `main` in `backup 2.py`. -/
def dealer_turn (hand deck : List Card) : Option (List Card × List Card) :=
  if calculate_total hand false < 17 then
    match h : deal_card deck with
    | none => none
    | some (c, deck1) =>
      let hand1 := hand ++ [c]
      if calculate_total hand1 false > 21 then some (hand1, deck1)
      else dealer_turn hand1 deck1
  else some (hand, deck)
termination_by deck.length
decreasing_by
  simp only [deal_card] at h
  cases hd : deck.getLast? with
  | none => simp [hd] at h
  | some d =>
    simp [hd] at h
    have hne : deck ≠ [] := by
      intro hn; rw [hn] at hd; simp at hd
    rw [← h.2]
    have := List.length_dropLast deck
    have hpos : 0 < deck.length := List.length_pos.mpr hne
    omega

/-- One betting round of `main` in `backup 2.py`. -/
def play_round (deck : List Card) (moves : List Move) (bet : Nat) : Option RoundResult :=
  match deal_card deck with
  | none => none
  | some (p1, deck1) =>
    match deal_card deck1 with
    | none => none
    | some (d1, deck2) =>
      match player_turn moves [p1] deck2 with
      | none => none
      | some (player, deck3) =>
        let player_total := calculate_total player false
        if player_total > 21 then
          some ⟨.bust, -(bet : Int), player, [d1], player_total,
            calculate_total [d1] false, deck3⟩
        else if player.length = 2 ∧ player_total = 21 then
          some ⟨.blackjack, ((5 * bet) / 2 : Nat), player, [d1], player_total,
            calculate_total [d1] false, deck3⟩
        else
          match dealer_turn [d1] deck3 with
          | none => none
          | some (dealer, deck4) =>
            let dealer_total := calculate_total dealer false
            if dealer_total > 21 then
              some ⟨.win, (bet : Int), player, dealer, player_total, dealer_total, deck4⟩
            else if player_total > dealer_total then
              some ⟨.win, (bet : Int), player, dealer, player_total, dealer_total, deck4⟩
            else if player_total < dealer_total then
              some ⟨.loss, -(bet : Int), player, dealer, player_total, dealer_total, deck4⟩
            else
              some ⟨.push, 0, player, dealer, player_total, dealer_total, deck4⟩

end B2

/-! ### Equivalence of the two programs -/

theorem B2_card_value_eq (c : Card) : B2.card_value c = card_value c := by
  obtain ⟨v, s⟩ := c
  cases v <;> rfl

theorem B2_deal_card_eq (deck : List Card) : B2.deal_card deck = deal_card deck := rfl

theorem B2_adjust_aces_eq : ∀ (a : Nat) (t : Int), B2.adjust_aces t a = adjust_aces t a := by
  intro a
  induction a with
  | zero => intro t; rfl
  | succ n ih =>
    intro t
    simp only [B2.adjust_aces, adjust_aces]
    by_cases h : t > 21
    · rw [if_pos h, if_pos h, ih]
    · rw [if_neg h, if_neg h]

theorem B2_calculate_total_eq (hand : List Card) (b : Bool) :
    B2.calculate_total hand b = calculate_total hand b := by
  have hmap : hand.map B2.card_value = hand.map card_value :=
    List.map_congr_left (fun c _ => B2_card_value_eq c)
  cases b with
  | true => simp only [B2.calculate_total, calculate_total, base_sum, ace_count, hmap,
      if_pos]
  | false =>
    simp only [B2.calculate_total, calculate_total, base_sum, ace_count, hmap,
      Bool.false_eq_true, if_false]
    exact B2_adjust_aces_eq _ _

theorem B2_player_turn_eq : ∀ (ms : List Move) (hand deck : List Card),
    B2.player_turn ms hand deck = player_turn ms hand deck := by
  intro ms
  induction ms with
  | nil => intro hand deck; rfl
  | cons m ms ih =>
    intro hand deck
    cases m with
    | stay => rfl
    | hit =>
      simp only [B2.player_turn, player_turn, B2_deal_card_eq]
      cases hdc : deal_card deck with
      | none => rfl
      | some cd =>
        obtain ⟨c, deck1⟩ := cd
        simp only [B2_calculate_total_eq]
        by_cases h21 : calculate_total (hand ++ [c]) false > 21
        · rw [if_pos h21, if_pos h21]
        · rw [if_neg h21, if_neg h21]
          by_cases he : calculate_total (hand ++ [c]) false = 21
          · rw [if_pos he, if_pos he]
          · rw [if_neg he, if_neg he, ih]

theorem B2_dealer_turn_unfold (hand deck : List Card) :
    B2.dealer_turn hand deck =
      if B2.calculate_total hand false < 17 then
        match B2.deal_card deck with
        | none => none
        | some (c, deck1) =>
          if B2.calculate_total (hand ++ [c]) false > 21 then some (hand ++ [c], deck1)
          else B2.dealer_turn (hand ++ [c]) deck1
      else some (hand, deck) := by
  rw [B2.dealer_turn]
  cases hdc : B2.deal_card deck with
  | none => simp [hdc]
  | some cd =>
    obtain ⟨c, deck1⟩ := cd
    simp [hdc]

theorem B2_dealer_turn_eq (hand deck : List Card) :
    B2.dealer_turn hand deck = dealer_turn hand deck := by
  induction hand, deck using B2.dealer_turn.induct with
  | case1 hand deck hlt hnone =>
    have hlt2 : calculate_total hand false < 17 := by
      rw [← B2_calculate_total_eq]; exact hlt
    have hnone2 : deal_card deck = none := hnone
    rw [B2_dealer_turn_unfold, dealer_turn_unfold,
      if_pos (by rw [B2_calculate_total_eq]; exact hlt2), if_pos hlt2]
    simp only [B2_deal_card_eq, hnone2]
  | case2 hand deck hlt c deck1 hsome hand1 hbust =>
    have hlt2 : calculate_total hand false < 17 := by
      rw [← B2_calculate_total_eq]; exact hlt
    have hsome2 : deal_card deck = some (c, deck1) := hsome
    have hbust2 : calculate_total (hand ++ [c]) false > 21 := by
      rw [← B2_calculate_total_eq]; exact hbust
    rw [B2_dealer_turn_unfold, dealer_turn_unfold,
      if_pos (by rw [B2_calculate_total_eq]; exact hlt2), if_pos hlt2]
    simp only [B2_deal_card_eq, hsome2]
    rw [if_pos (by rw [B2_calculate_total_eq]; exact hbust2), if_pos hbust2]
  | case3 hand deck hlt c deck1 hsome hand1 hnb ih =>
    have hlt2 : calculate_total hand false < 17 := by
      rw [← B2_calculate_total_eq]; exact hlt
    have hsome2 : deal_card deck = some (c, deck1) := hsome
    have hnb2 : ¬ calculate_total (hand ++ [c]) false > 21 := by
      rw [← B2_calculate_total_eq]; exact hnb
    rw [B2_dealer_turn_unfold, dealer_turn_unfold,
      if_pos (by rw [B2_calculate_total_eq]; exact hlt2), if_pos hlt2]
    simp only [B2_deal_card_eq, hsome2]
    rw [if_neg (by rw [B2_calculate_total_eq]; exact hnb2), if_neg hnb2]
    exact ih
  | case4 hand deck hge =>
    have hge2 : ¬ calculate_total hand false < 17 := by
      rw [← B2_calculate_total_eq]; exact hge
    rw [B2_dealer_turn_unfold, dealer_turn_unfold,
      if_neg (by rw [B2_calculate_total_eq]; exact hge2), if_neg hge2]

theorem B2_play_round_eq (deck : List Card) (moves : List Move) (bet : Nat) :
    B2.play_round deck moves bet = play_round deck moves bet := by
  rw [B2.play_round, play_round]
  simp only [B2_deal_card_eq, B2_player_turn_eq, B2_calculate_total_eq, B2_dealer_turn_eq]

/-- C9: the two source programs are behaviorally equivalent — their
`create_deck`, `card_value`, `calculate_total` and `deal_card` agree on
every input, and their round logic (`play_round`, covering dealing, the
player turn, blackjack and bust settlement, the dealer draw loop, the
outcome comparison and the balance delta) returns identical results. -/
theorem programs_equivalent :
    B2.create_deck = create_deck ∧
    (∀ c : Card, B2.card_value c = card_value c) ∧
    (∀ (hand : List Card) (b : Bool),
      B2.calculate_total hand b = calculate_total hand b) ∧
    (∀ deck : List Card, B2.deal_card deck = deal_card deck) ∧
    (∀ (deck : List Card) (moves : List Move) (bet : Nat),
      B2.play_round deck moves bet = play_round deck moves bet) :=
  ⟨rfl, B2_card_value_eq, B2_calculate_total_eq, B2_deal_card_eq, B2_play_round_eq⟩
